import Mathlib

/-!
Shallow embedding of the ChessAgents backend core
(`Backend/openings/opening_families.py`, `Backend/app/agent_queries.py`,
`Backend/repositories/game_store.py`) and proofs about it.

Conventions of the embedding:
* Python `Optional[T]` becomes `Option T`; Python string truthiness
  (`if s:`) becomes an emptiness test on the character list.
* Python `str.lower()` / `str.upper()` become character-wise ASCII
  `Char.toLower` / `Char.toUpper` maps over the string's character list
  (the repository only ever compares ASCII player names, ECO codes and
  family labels; `str.isdigit` is modelled as ASCII `Char.isDigit`).
* SQL `ILIKE '%pat%'` with a literal pattern becomes case-insensitive
  substring containment, and `ILIKE 'pat%'` case-insensitive
  starts-with matching; a SQL NULL column never matches.
* The SHA-1 digest from Python's `hashlib` is a foreign library call, so
  the repository operations are parameterised by an arbitrary digest
  function `hash : String → String`; every theorem holds for all such
  functions.
-/

/-- Lowercase a string character-wise (model of Python `str.lower()`). -/
def lowerS (s : String) : String := String.mk (s.data.map Char.toLower)

/-- Boolean test that the list `p` occurs at the front of `h`. -/
def startsL : List Char → List Char → Bool
  | [], _ => true
  | _ :: _, [] => false
  | p :: ps, c :: cs => (p == c) && startsL ps cs

/-- Boolean test that the list `p` occurs contiguously somewhere in `h`. -/
def subL (p : List Char) : List Char → Bool
  | [] => p.isEmpty
  | c :: cs => startsL p (c :: cs) || subL p cs

/-- Case-sensitive substring containment on strings. -/
def containsS (hay pat : String) : Bool := subL pat.data hay.data

/-- The ECO range table of `OpeningFamilies._ECO_RANGES`:
`(family, start, end)` with inclusive bounds. -/
def ECO_RANGES : List (String × String × String) := [
  ("Sicilian Defense", "B20", "B99"),
  ("French Defense", "C00", "C19"),
  ("Caro-Kann Defense", "B10", "B19"),
  ("Scandinavian Defense", "B01", "B01"),
  ("Alekhine Defense", "B02", "B05"),
  ("Pirc/Modern", "B06", "B09"),
  ("Ruy Lopez", "C60", "C99"),
  ("Italian Game", "C50", "C59"),
  ("Scotch Game", "C44", "C45"),
  ("Philidor Defense", "C41", "C41"),
  ("Petrov Defense", "C40", "C42"),
  ("Queen\x27s Gambit", "D06", "D69"),
  ("Slav/Semi-Slav", "D10", "D19"),
  ("Catalan", "E01", "E09"),
  ("Nimzo-Indian", "E20", "E59"),
  ("Queen\x27s Indian", "E12", "E19"),
  ("King\x27s Indian", "E60", "E99"),
  ("Grünfeld", "D70", "D99"),
  ("Benoni/Benko", "A56", "A79"),
  ("Dutch Defense", "A80", "A99"),
  ("English Opening", "A10", "A39"),
  ("London/Trompowsky/Jobava", "A45", "A46"),
  ("Vienna Game", "C25", "C29"),
  ("King\x27s Gambit", "C30", "C39"),
  ("Other/Irregular", "A00", "A09")
]

/-- The name rules of `OpeningFamilies._name_rules`.  Every regex in the
source is an alternation of literal substrings under `re.I`, so each rule
is the list of its lowercase literal alternatives together with the family
it yields; a rule fires when any alternative occurs in the lowercased
opening name. -/
def NAME_RULES : List (List String × String) := [
  (["sicilian"], "Sicilian Defense"),
  (["french"], "French Defense"),
  (["carokann", "caro-kann", "caro kann"], "Caro-Kann Defense"),
  (["italian"], "Italian Game"),
  (["ruy"], "Ruy Lopez"),
  (["scotch"], "Scotch Game"),
  (["petrov", "russian"], "Petrov Defense"),
  (["philidor"], "Philidor Defense"),
  (["queens gambit", "queen\x27s gambit"], "Queen\x27s Gambit"),
  (["slav"], "Slav/Semi-Slav"),
  (["catalan"], "Catalan"),
  (["nimzo"], "Nimzo-Indian"),
  (["queens indian", "queen\x27s indian"], "Queen\x27s Indian"),
  (["kings indian", "king\x27s indian"], "King\x27s Indian"),
  (["grunfeld", "grünfeld"], "Grünfeld"),
  (["benoni", "benko"], "Benoni/Benko"),
  (["dutch"], "Dutch Defense"),
  (["english"], "English Opening"),
  (["vienna"], "Vienna Game"),
  (["kings gambit", "king\x27s gambit"], "King\x27s Gambit"),
  (["pirc", "modern"], "Pirc/Modern"),
  (["london", "tromp", "jobava"], "London/Trompowsky/Jobava")
]

/-- Index of an ECO letter in `"ABCDE"` (model of
`"ABCDE".index(letter)` guarded by `letter not in "ABCDE"`). -/
def letterIndex (c : Char) : Option Nat :=
  if c = 'A' then some 0
  else if c = 'B' then some 1
  else if c = 'C' then some 2
  else if c = 'D' then some 3
  else if c = 'E' then some 4
  else none

/-- `OpeningFamilies._eco_to_num`: `"B90" -> 2090`; `none` on the empty
string, a string whose length is not 3, a first character whose uppercase
is outside `A`–`E`, or non-digit second or third characters. -/
def ecoToNum (eco : String) : Option Nat :=
  match eco.data with
  | [c0, c1, c2] =>
    match letterIndex c0.toUpper with
    | none => none
    | some i =>
      if c1.isDigit && c2.isDigit then
        some ((i + 1) * 1000 + ((c1.toNat - 48) * 10 + (c2.toNat - 48)))
      else none
  | _ => none

/-- The per-row test inside the range scan of `family_from_eco_or_name`:
both bounds parse and `ns <= n <= ne`. -/
def rangeHit (n : Nat) (r : String × String × String) : Bool :=
  match ecoToNum r.2.1, ecoToNum r.2.2 with
  | some ns, some ne => Nat.ble ns n && Nat.ble n ne
  | _, _ => false

/-- The range scan inside `family_from_eco_or_name`: first row of the
table whose (parsed) inclusive bounds contain `n` wins; rows whose bounds
fail to parse are passed over. -/
def findRange (n : Nat) : List (String × String × String) → Option String
  | [] => none
  | r :: rest => if rangeHit n r then some r.1 else findRange n rest

/-- The rule scan inside `family_from_eco_or_name`: first rule one of
whose lowercase alternatives occurs in the (already lowercased) opening
name wins. -/
def findRule (o : String) : List (List String × String) → Option String
  | [] => none
  | (pats, fam) :: rest =>
    if pats.any (fun p => containsS o p) then some fam else findRule o rest

/-- The ECO branch of `family_from_eco_or_name`: guarded by the Python
truthiness test `if eco:`, then parse and scan the range table. -/
def ecoStep (eco : Option String) : Option String :=
  match eco with
  | none => none
  | some e =>
    if e.data.isEmpty then none
    else
      match ecoToNum e with
      | none => none
      | some n => findRange n ECO_RANGES

/-- The name branch of `family_from_eco_or_name`: guarded by
`if opening:`, then scan the name rules against the lowercased name. -/
def nameStep (opening : Option String) : Option String :=
  match opening with
  | none => none
  | some o => if o.data.isEmpty then none else findRule (lowerS o) NAME_RULES

/-- `OpeningFamilies.family_from_eco_or_name`: ECO branch first, then the
name branch, then the catch-all label. -/
def family_from_eco_or_name (eco opening : Option String) : String :=
  match ecoStep eco with
  | some fam => fam
  | none =>
    match nameStep opening with
    | some fam => fam
    | none => "Other/Irregular"

/-- The fixed set of family labels the classifier can emit: the range
families, the rule families, and the catch-all. -/
def FAMILIES : List String :=
  ECO_RANGES.map (fun r => r.1) ++ NAME_RULES.map (fun r => r.2)
    ++ ["Other/Irregular"]

/-- `Literal["white", "black"]` of `agent_queries.py`. -/
inductive PColor where
  | white
  | black
deriving DecidableEq

/-- `Literal["win", "loss", "draw"]` of `agent_queries.py`. -/
inductive PResult where
  | win
  | loss
  | draw
deriving DecidableEq

/-- `Literal["asc", "desc"]` of `agent_queries.py`. -/
inductive OrderDir where
  | asc
  | desc
deriving DecidableEq

/-- The persisted `GameRow` of `game_store.py` (the `id` primary key is
modelled as an assigned `Nat`). -/
structure GameRow where
  id : Nat
  pgn_sha1 : String
  pgn : String
  year : Int
  month : Int
  white : Option String
  black : Option String
  result : Option String
  time_control : Option String
  eco : Option String
  opening : Option String
  end_time_utc : Option Int
deriving DecidableEq

/-- `AgentQueryService._pov`: outcome of a game from the named user's
point of view; the constructor's `username.lower()` is inlined here. -/
def povOf (username : String) (g : GameRow) : Option PResult :=
  let u := lowerS username
  match g.result with
  | none => none
  | some r =>
    if r.data.isEmpty then none
    else
      let isW := lowerS (g.white.getD "") == u
      let isB := lowerS (g.black.getD "") == u
      if !(isW || isB) then none
      else if r == "1/2-1/2" then some PResult.draw
      else if r == "1-0" then (if isW then some PResult.win else some PResult.loss)
      else if r == "0-1" then (if isB then some PResult.win else some PResult.loss)
      else none

/-- `AgentQueryService._my_color`. -/
def myColorOf (username : String) (g : GameRow) : Option PColor :=
  let u := lowerS username
  if lowerS (g.white.getD "") == u then some PColor.white
  else if lowerS (g.black.getD "") == u then some PColor.black
  else none

/-- The dict produced by `AgentQueryService._row_to_dict` (`date` and
`ply_count` are always absent in this schema). -/
structure GameView where
  id : Nat
  date : Option Int
  white : Option String
  black : Option String
  my_color : Option PColor
  pov_result : Option PResult
  eco : Option String
  opening : Option String
  family : String
  time_control : Option String
  ply_count : Option Nat
  end_time_utc : Option Int
deriving DecidableEq

/-- `AgentQueryService._row_to_dict`. -/
def rowToDict (username : String) (g : GameRow) : GameView :=
  { id := g.id
    date := none
    white := g.white
    black := g.black
    my_color := myColorOf username g
    pov_result := povOf username g
    eco := g.eco
    opening := g.opening
    family := family_from_eco_or_name g.eco g.opening
    time_control := g.time_control
    ply_count := none
    end_time_utc := g.end_time_utc }

/-- The candidate predicate of `games`: `white ILIKE '%username%' OR
black ILIKE '%username%'` with the already-lowercased stored username
(a NULL column never matches; the username is treated as a literal
pattern, SQL wildcard characters inside it are out of scope). -/
def candidateB (username : String) (g : GameRow) : Bool :=
  let u := lowerS username
  (match g.white with
   | some w => containsS (lowerS w) u
   | none => false)
  || (match g.black with
      | some b => containsS (lowerS b) u
      | none => false)

/-- The candidate set pulled by the opening `select` of `games`. -/
def selectCandidates (db : List GameRow) (username : String) : List GameRow :=
  db.filter (candidateB username)

/-- Comparison used by `ORDER BY id ASC|DESC`. -/
def idLe (dir : OrderDir) (a b : GameRow) : Bool :=
  match dir with
  | OrderDir.asc => Nat.ble a.id b.id
  | OrderDir.desc => Nat.ble b.id a.id

/-- Stable insertion used to model `ORDER BY`. -/
def insertRow (dir : OrderDir) (g : GameRow) : List GameRow → List GameRow
  | [] => [g]
  | h :: t => if idLe dir g h then g :: h :: t else h :: insertRow dir g t

/-- Stable sort used to model `ORDER BY`. -/
def sortRows (dir : OrderDir) : List GameRow → List GameRow
  | [] => []
  | h :: t => insertRow dir h (sortRows dir t)

/-- The SQL phase of `AgentQueryService.games`: candidate selection, the
two server-side filters (both skipped on a falsy argument, both failing
on a NULL column), then ordering by `id`. -/
def sqlRows (db : List GameRow) (username : String)
    (opening_like ecoPre : Option String) (dir : OrderDir) : List GameRow :=
  let rows := selectCandidates db username
  let rows := match opening_like with
    | some s =>
      if s.data.isEmpty then rows
      else rows.filter (fun g =>
        match g.opening with
        | some o => containsS (lowerS o) (lowerS s)
        | none => false)
    | none => rows
  let rows := match ecoPre with
    | some s =>
      if s.data.isEmpty then rows
      else rows.filter (fun g =>
        match g.eco with
        | some e => startsL (lowerS s).data (lowerS e).data
        | none => false)
    | none => rows
  sortRows dir rows

/-- The in-memory filter of the `games` loop: `color`, then `result`,
then `family` (the family filter is skipped on a falsy value and
compares lowercased labels). -/
def keepB (username : String) (family : Option String)
    (color : Option PColor) (result : Option PResult) (g : GameRow) : Bool :=
  (match color with
   | some c => myColorOf username g == some c
   | none => true)
  && (match result with
      | some r => povOf username g == some r
      | none => true)
  && (match family with
      | some f =>
        if f.data.isEmpty then true
        else lowerS (family_from_eco_or_name g.eco g.opening) == lowerS f
      | none => true)

/-- `AgentQueryService.games` before its final pagination slice: the
`out` list the loop accumulates. -/
def filteredGames (db : List GameRow) (username : String)
    (opening_like ecoPre family : Option String) (color : Option PColor)
    (result : Option PResult) (dir : OrderDir) : List GameView :=
  ((sqlRows db username opening_like ecoPre dir).filter
      (keepB username family color result)).map (rowToDict username)

/-- `AgentQueryService.games`: the full pipeline ending in the slice
`out[offset : offset + limit]`. -/
def games (db : List GameRow) (username : String)
    (opening_like ecoPre family : Option String) (color : Option PColor)
    (result : Option PResult) (dir : OrderDir) (limit offset : Nat) : List GameView :=
  ((filteredGames db username opening_like ecoPre family color result dir).drop
      offset).take limit

/-- The duck-typed ingestion input of `upsert_games`: any object whose
attributes are read with `getattr(..., default)`. -/
structure RawGame where
  pgn : Option String
  year : Option Int
  month : Option Int
  white : Option String
  black : Option String
  result : Option String
  time_control : Option String
  eco : Option String
  end_time_utc : Option Int
deriving DecidableEq

/-- `getattr(g, "pgn", "") or ""`: an absent or empty PGN text is
normalised to the empty string. -/
def pgnText (g : RawGame) : String :=
  match g.pgn with
  | none => ""
  | some s => if s.data.isEmpty then "" else s

/-- The `GameRow(...)` built by `upsert_games` for a fresh digest (the
source omits the `opening` field, so it defaults to absent). -/
def rowOfRaw (nextId : Nat) (digest : String) (g : RawGame) : GameRow :=
  { id := nextId
    pgn_sha1 := digest
    pgn := pgnText g
    year := g.year.getD 0
    month := g.month.getD 0
    white := g.white
    black := g.black
    result := g.result
    time_control := g.time_control
    eco := g.eco
    opening := none
    end_time_utc := g.end_time_utc }

/-- The duplicate probe of `upsert_games`: is a row with this digest
already stored? -/
def hasDigest (store : List GameRow) (digest : String) : Bool :=
  store.any (fun row => row.pgn_sha1 == digest)

/-- `SqlModelGameRepository.upsert_games`, parameterised by the digest
function: returns the resulting store together with the
`(inserted, skipped)` counters.  A fresh row is appended (and, per the
session's autoflush, visible to later probes of the same call). -/
def upsertGames (hash : String → String) :
    List GameRow → List RawGame → List GameRow × Nat × Nat
  | store, [] => (store, 0, 0)
  | store, g :: gs =>
    let digest := hash (pgnText g)
    if hasDigest store digest then
      let r := upsertGames hash store gs
      (r.1, r.2.1, r.2.2 + 1)
    else
      let r := upsertGames hash
        (store ++ [rowOfRaw (store.length + 1) digest g]) gs
      (r.1, r.2.1 + 1, r.2.2)

/-- `GameStore.ingest`: the `{"inserted": _, "skipped": _}` dict of one
facade call. -/
def ingestCounts (hash : String → String) (store : List GameRow)
    (gs : List RawGame) : Nat × Nat :=
  (upsertGames hash store gs).2

example : ecoToNum "B32" = some 2032 := by decide
example : family_from_eco_or_name (some "B32") none = "Sicilian Defense" := by decide
example : family_from_eco_or_name none (some "Queen\x27s Gambit Declined")
    = "Queen\x27s Gambit" := by decide
example : family_from_eco_or_name (some "Z99") (some "nonsense")
    = "Other/Irregular" := by decide
example : family_from_eco_or_name (some "D10") none = "Queen\x27s Gambit" := by decide

theorem startsL_iff (p : List Char) : ∀ h : List Char, startsL p h = true ↔ p <+: h := by
  induction p with
  | nil =>
    intro h
    simp only [startsL]
    exact ⟨fun _ => ⟨h, rfl⟩, fun _ => trivial⟩
  | cons a ps ih =>
    intro h
    cases h with
    | nil =>
      simp only [startsL]
      constructor
      · intro hc; cases hc
      · intro hc
        have := List.eq_nil_of_sublist_nil hc.sublist
        cases this
    | cons c cs =>
      simp only [startsL, Bool.and_eq_true, beq_iff_eq, ih cs,
        List.cons_prefix_cons]

theorem subL_iff (p : List Char) : ∀ h : List Char, subL p h = true ↔ p <:+: h := by
  intro h
  induction h with
  | nil =>
    simp only [subL, List.isEmpty_iff, List.infix_nil]
  | cons c cs ih =>
    simp only [subL, Bool.or_eq_true, startsL_iff, ih, List.infix_cons_iff]

theorem containsS_iff (hay pat : String) :
    containsS hay pat = true ↔ pat.data <:+: hay.data := by
  simpa [containsS] using subL_iff pat.data hay.data

theorem findRange_mem {n : Nat} {L : List (String × String × String)} {f : String}
    (h : findRange n L = some f) : f ∈ L.map (fun r => r.1) := by
  induction L with
  | nil => simp [findRange] at h
  | cons r rest ih =>
    rw [findRange] at h
    by_cases hr : rangeHit n r
    · simp only [hr, if_true, Option.some.injEq] at h
      simp [← h]
    · simp only [hr, if_false, Bool.false_eq_true] at h
      simp [ih h]

theorem findRule_mem {o : String} {L : List (List String × String)} {f : String}
    (h : findRule o L = some f) : f ∈ L.map (fun r => r.2) := by
  induction L with
  | nil => simp [findRule] at h
  | cons r rest ih =>
    rw [findRule] at h
    by_cases hr : (r.1.any fun p => containsS o p) = true
    · simp only [hr, if_true, Option.some.injEq] at h
      simp [← h]
    · simp only [hr, if_false] at h
      simp [ih h]

theorem ecoToNum_data_ne_nil {e : String} {n : Nat} (h : ecoToNum e = some n) :
    e.data ≠ [] := by
  intro hnil
  rw [ecoToNum, hnil] at h
  cases h

theorem ecoStep_eq_findRange {e : String} {n : Nat} (h : ecoToNum e = some n) :
    ecoStep (some e) = findRange n ECO_RANGES := by
  have hne : e.data.isEmpty = false := by
    rcases hd : e.data with _ | ⟨c, cs⟩
    · exact absurd hd (ecoToNum_data_ne_nil h)
    · simp [List.isEmpty]
  rw [ecoStep, hne, h]
  simp

theorem findRange_isSome_of_any {n : Nat} {L : List (String × String × String)}
    (h : L.any (rangeHit n) = true) : ∃ fam, findRange n L = some fam := by
  induction L with
  | nil => simp at h
  | cons r rest ih =>
    by_cases hr : rangeHit n r
    · exact ⟨r.1, by simp [findRange, hr]⟩
    · rw [List.any_cons] at h
      rcases Bool.or_eq_true_iff.mp h with hh | hh
      · exact absurd hh hr
      · obtain ⟨fam, hfam⟩ := ih hh
        exact ⟨fam, by simp [findRange, hr, hfam]⟩

theorem classify_mem_FAMILIES (eco opening : Option String) :
    family_from_eco_or_name eco opening ∈ FAMILIES := by
  rw [family_from_eco_or_name]
  rcases he : ecoStep eco with _ | fam
  · rcases ho : nameStep opening with _ | fam
    · simp only []
      decide
    · have hmem : fam ∈ NAME_RULES.map (fun r => r.2) := by
        rcases opening with _ | o
        · cases ho
        · rw [nameStep] at ho
          by_cases h1 : o.data.isEmpty
          · rw [if_pos h1] at ho; cases ho
          · rw [if_neg h1] at ho
            exact findRule_mem ho
      exact List.mem_append_left _ (List.mem_append_right _ hmem)
  · have hmem : fam ∈ ECO_RANGES.map (fun r => r.1) := by
      rcases eco with _ | e
      · cases he
      · rw [ecoStep] at he
        by_cases h1 : e.data.isEmpty
        · rw [if_pos h1] at he; cases he
        · rw [if_neg h1] at he
          rcases h2 : ecoToNum e with _ | m
          · rw [h2] at he; cases he
          · rw [h2] at he
            exact findRange_mem he
    exact List.mem_append_left _ (List.mem_append_left _ hmem)

theorem classify_eco_congr {e1 e2 : String} (h : ecoToNum e1 = ecoToNum e2)
    (h1 : e1.data.isEmpty = e2.data.isEmpty) (name : Option String) :
    family_from_eco_or_name (some e1) name = family_from_eco_or_name (some e2) name := by
  rw [family_from_eco_or_name, family_from_eco_or_name, ecoStep, ecoStep, h, h1]

theorem ecoToNum_mk_toUpper (c d1 d2 : Char) (hid : c.toUpper.toUpper = c.toUpper) :
    ecoToNum (String.mk [c.toUpper, d1, d2]) = ecoToNum (String.mk [c, d1, d2]) := by
  show (match letterIndex c.toUpper.toUpper with
        | none => none
        | some i =>
          if d1.isDigit && d2.isDigit then
            some ((i + 1) * 1000 + ((d1.toNat - 48) * 10 + (d2.toNat - 48)))
          else none)
      = (match letterIndex c.toUpper with
        | none => none
        | some i =>
          if d1.isDigit && d2.isDigit then
            some ((i + 1) * 1000 + ((d1.toNat - 48) * 10 + (d2.toNat - 48)))
          else none)
  rw [hid]

/-- C1 (counterexample): the declared ECO ranges are not pairwise
non-overlapping, and a code inside a declared range need not be classified
to that range's family: `"D10"` lies inside the declared Slav/Semi-Slav
range `D10`–`D19`, yet `classify` returns `"Queen's Gambit"` (whose range
`D06`–`D69` comes earlier in the table and also contains `D10`). -/
theorem classify_range_table_overlap_cex :
    ("Slav/Semi-Slav", "D10", "D19") ∈ ECO_RANGES
    ∧ ecoToNum "D10" = some 4010
    ∧ rangeHit 4010 ("Slav/Semi-Slav", "D10", "D19") = true
    ∧ rangeHit 4010 ("Queen\x27s Gambit", "D06", "D69") = true
    ∧ family_from_eco_or_name (some "D10") none = "Queen\x27s Gambit"
    ∧ "Queen\x27s Gambit" ≠ "Slav/Semi-Slav" := by
  decide

/-- C1 (amended): for every well-formed ECO code whose numeric key lies
in at least one declared range, `classify` returns the family of the
first range in table order containing the key, and does so for every
value of `openingName`; table order matters because the declared ranges
are not pairwise disjoint. -/
theorem classify_first_matching_range (eco : String) (name : Option String) (n : Nat)
    (h1 : ecoToNum eco = some n)
    (h2 : ECO_RANGES.any (rangeHit n) = true) :
    ∃ fam, findRange n ECO_RANGES = some fam
      ∧ family_from_eco_or_name (some eco) name = fam := by
  obtain ⟨fam, hfam⟩ := findRange_isSome_of_any h2
  refine ⟨fam, hfam, ?_⟩
  rw [family_from_eco_or_name, ecoStep_eq_findRange h1, hfam]

/-- C1 (witness): instantiating the amended claim at `"D10"` with an
opening name that the name rules would classify differently. -/
theorem classify_first_matching_range_witness :
    ∃ fam, findRange 4010 ECO_RANGES = some fam
      ∧ family_from_eco_or_name (some "D10") (some "Slav Defense") = fam :=
  classify_first_matching_range "D10" (some "Slav Defense") 4010 (by decide) (by decide)

/-- C7: `classify` is total and deterministic: every `(eco, openingName)`
pair, including both absent, yields exactly one label from the fixed
family set, and when neither the ECO path nor the name path matches the
result is the catch-all `"Other/Irregular"`. -/
theorem classify_total_and_in_family_set (eco opening : Option String) :
    family_from_eco_or_name eco opening ∈ FAMILIES
    ∧ (ecoStep eco = none → nameStep opening = none →
        family_from_eco_or_name eco opening = "Other/Irregular") := by
  refine ⟨classify_mem_FAMILIES eco opening, ?_⟩
  intro h1 h2
  rw [family_from_eco_or_name, h1, h2]

/-- C7 (witness): the both-absent instance. -/
theorem classify_total_and_in_family_set_witness :
    family_from_eco_or_name none none ∈ FAMILIES
    ∧ family_from_eco_or_name none none = "Other/Irregular" :=
  ⟨(classify_total_and_in_family_set none none).1,
   (classify_total_and_in_family_set none none).2 rfl rfl⟩

/-- C8: a malformed ECO code (anything `_eco_to_num` rejects: wrong
length, letter outside A–E, non-digit characters) is treated exactly as
an absent code, falling through to the name rules; the ECO letter is
matched case-insensitively for well-formed codes; and
`classify("Z99", "nonsense")` is the catch-all. -/
theorem classify_malformed_eco_treated_absent :
    (∀ (e : String) (name : Option String), ecoToNum e = none →
      family_from_eco_or_name (some e) name = family_from_eco_or_name none name)
    ∧ (∀ (c d1 d2 : Char) (name : Option String),
        c ∈ (['a', 'b', 'c', 'd', 'e', 'A', 'B', 'C', 'D', 'E'] : List Char) →
        family_from_eco_or_name (some (String.mk [c, d1, d2])) name
          = family_from_eco_or_name (some (String.mk [c.toUpper, d1, d2])) name)
    ∧ family_from_eco_or_name (some "Z99") (some "nonsense") = "Other/Irregular" := by
  refine ⟨?_, ?_, by decide⟩
  · intro e name h
    have hstep : ecoStep (some e) = none := by
      rw [ecoStep]
      by_cases h1 : e.data.isEmpty
      · simp [h1]
      · simp [h1, h]
    rw [family_from_eco_or_name, hstep, family_from_eco_or_name]
    rfl
  · intro c d1 d2 name hmem
    fin_cases hmem <;>
      exact classify_eco_congr ((ecoToNum_mk_toUpper _ _ _ (by decide)).symm) rfl name

/-- C8 (witness): a wrong-length code classifies exactly as an absent
code over the same opening name. -/
theorem classify_malformed_eco_treated_absent_witness :
    family_from_eco_or_name (some "Z9") (some "Sicilian x")
      = family_from_eco_or_name none (some "Sicilian x") :=
  classify_malformed_eco_treated_absent.1 "Z9" (some "Sicilian x") (by decide)

/-- C2 (counterexample): with the outcome stored as the literal string
`"white wins"` — the code the spec's data model declares — the resolver
recognises nothing and returns `none` for both players instead of
win/loss. -/
theorem pov_spec_literal_outcome_cex :
    povOf "alice"
      { id := 1, pgn_sha1 := "h", pgn := "", year := 0, month := 0,
        white := some "alice", black := some "bob",
        result := some "white wins", time_control := none, eco := none,
        opening := none, end_time_utc := none } = none
    ∧ povOf "bob"
      { id := 1, pgn_sha1 := "h", pgn := "", year := 0, month := 0,
        white := some "alice", black := some "bob",
        result := some "white wins", time_control := none, eco := none,
        opening := none, end_time_utc := none } = none := by
  decide

/-- C2 (amended): `resolvePerspective` is symmetric under player swap
using the outcome codes the code actually stores, the PGN result strings:
for every game with white `"alice"`, black `"bob"` and result `"1-0"`
(the stored encoding of a white win), alice resolves to `win` and bob to
`loss`. -/
theorem pov_symmetric_player_swap (g : GameRow)
    (hw : g.white = some "alice") (hb : g.black = some "bob")
    (hr : g.result = some "1-0") :
    povOf "alice" g = some PResult.win ∧ povOf "bob" g = some PResult.loss := by
  rcases g with ⟨i, sha, p, y, mo, w, b, r, tc, e, op, eu⟩
  obtain rfl : w = some "alice" := hw
  obtain rfl : b = some "bob" := hb
  obtain rfl : r = some "1-0" := hr
  exact ⟨rfl, rfl⟩

/-- C2 (witness): the amended claim at a concrete game. -/
theorem pov_symmetric_player_swap_witness :
    povOf "alice"
      { id := 7, pgn_sha1 := "s", pgn := "x", year := 2024, month := 1,
        white := some "alice", black := some "bob",
        result := some "1-0", time_control := some "600",
        eco := some "B20", opening := none, end_time_utc := none }
      = some PResult.win
    ∧ povOf "bob"
      { id := 7, pgn_sha1 := "s", pgn := "x", year := 2024, month := 1,
        white := some "alice", black := some "bob",
        result := some "1-0", time_control := some "600",
        eco := some "B20", opening := none, end_time_utc := none }
      = some PResult.loss :=
  pov_symmetric_player_swap _ rfl rfl rfl

/-- C4: `resolvePerspective` returns `none`, never an error, when the
outcome is absent, when the username matches neither player field
case-insensitively (for any outcome), and when the outcome code is not
one of the recognised strings `"1-0"`, `"0-1"`, `"1/2-1/2"`. -/
theorem pov_undefined_cases (username : String) (g : GameRow) :
    (g.result = none → povOf username g = none)
    ∧ (lowerS (g.white.getD "") ≠ lowerS username →
        lowerS (g.black.getD "") ≠ lowerS username → povOf username g = none)
    ∧ (∀ r, g.result = some r →
        r ∉ (["1-0", "0-1", "1/2-1/2"] : List String) → povOf username g = none) := by
  refine ⟨?_, ?_, ?_⟩
  · intro h
    rw [povOf, h]
  · intro h1 h2
    have hw : (lowerS (g.white.getD "") == lowerS username) = false :=
      beq_eq_false_iff_ne.mpr h1
    have hb : (lowerS (g.black.getD "") == lowerS username) = false :=
      beq_eq_false_iff_ne.mpr h2
    cases hres : g.result with
    | none => simp [povOf, hres]
    | some r =>
      by_cases hemp : r.data.isEmpty
      · simp [povOf, hres, hemp]
      · simp [povOf, hres, hemp, hw, hb]
  · intro r hres hnot
    have e1 : (r == "1-0") = false := by
      refine beq_eq_false_iff_ne.mpr ?_
      intro e; exact hnot (by simp [e])
    have e2 : (r == "0-1") = false := by
      refine beq_eq_false_iff_ne.mpr ?_
      intro e; exact hnot (by simp [e])
    have e3 : (r == "1/2-1/2") = false := by
      refine beq_eq_false_iff_ne.mpr ?_
      intro e; exact hnot (by simp [e])
    by_cases hemp : r.data.isEmpty
    · simp [povOf, hres, hemp]
    · simp [povOf, hres, hemp, e1, e2, e3]

/-- C4 (witness): a user who plays neither side resolves to `none` even
on a decisive stored outcome. -/
theorem pov_undefined_cases_witness :
    povOf "carol"
      { id := 2, pgn_sha1 := "s", pgn := "x", year := 2024, month := 2,
        white := some "Alice", black := some "Bob",
        result := some "1-0", time_control := none, eco := none,
        opening := none, end_time_utc := none } = none :=
  (pov_undefined_cases "carol" _).2.1 (by decide) (by decide)

theorem candidateB_iff (username : String) (g : GameRow) :
    candidateB username g = true ↔
      ((∃ w, g.white = some w ∧ (lowerS username).data <:+: (lowerS w).data)
        ∨ (∃ b, g.black = some b ∧ (lowerS username).data <:+: (lowerS b).data)) := by
  cases hw : g.white <;> cases hb : g.black <;>
    simp [candidateB, hw, hb, containsS_iff]

/-- C3: pagination law: for every filter set and every limit `L` and
offset `O`, `games` with `(L, O)` equals the slice `[O, O + L)` of
`games` run with offset `0` and any limit at least the size of the
filtered result (the embedding of an unbounded limit); pagination is the
last step, after the storage-level and the derived filters. -/
theorem games_pagination_law (db : List GameRow) (u : String)
    (ol ep fam : Option String) (col : Option PColor) (res : Option PResult)
    (dir : OrderDir) (L O M : Nat)
    (hM : (filteredGames db u ol ep fam col res dir).length ≤ M) :
    games db u ol ep fam col res dir L O
      = ((games db u ol ep fam col res dir M 0).drop O).take L := by
  rw [games, games, List.drop_zero, List.take_of_length_le hM]

/-- C3 (witness): the law at a concrete two-game store with `L = 1`,
`O = 1` against limit `10` as the unbounded run. -/
theorem games_pagination_law_witness :
    games
      [{ id := 1, pgn_sha1 := "a", pgn := "x", year := 2024, month := 1,
         white := some "Ann", black := some "Bob",
         result := some "1-0", time_control := none, eco := some "B20",
         opening := none, end_time_utc := none },
       { id := 2, pgn_sha1 := "b", pgn := "y", year := 2024, month := 1,
         white := some "Bob", black := some "Ann",
         result := some "0-1", time_control := none, eco := some "C60",
         opening := none, end_time_utc := none }]
      "ann" none none none none none OrderDir.desc 1 1
      = ((games
          [{ id := 1, pgn_sha1 := "a", pgn := "x", year := 2024, month := 1,
             white := some "Ann", black := some "Bob",
             result := some "1-0", time_control := none, eco := some "B20",
             opening := none, end_time_utc := none },
           { id := 2, pgn_sha1 := "b", pgn := "y", year := 2024, month := 1,
             white := some "Bob", black := some "Ann",
             result := some "0-1", time_control := none, eco := some "C60",
             opening := none, end_time_utc := none }]
          "ann" none none none none none OrderDir.desc 10 0).drop 1).take 1 :=
  games_pagination_law _ "ann" none none none none none OrderDir.desc 1 1 10
    (by decide)

/-- C6: candidate selection admits exactly the stored games where the
username occurs case-insensitively as a substring of the white or of the
black player name — containment, not equality — so `"Annabelle"` is a
candidate for the query username `"ann"`. -/
theorem candidate_selection_substring (db : List GameRow) (username : String)
    (g : GameRow) :
    (g ∈ selectCandidates db username ↔
      g ∈ db ∧
        ((∃ w, g.white = some w ∧ (lowerS username).data <:+: (lowerS w).data)
          ∨ (∃ b, g.black = some b ∧ (lowerS username).data <:+: (lowerS b).data)))
    ∧ candidateB "ann"
        { id := 3, pgn_sha1 := "s", pgn := "x", year := 2024, month := 3,
          white := some "Annabelle", black := some "Zed",
          result := none, time_control := none, eco := none,
          opening := none, end_time_utc := none } = true := by
  refine ⟨?_, by decide⟩
  rw [selectCandidates, List.mem_filter, candidateB_iff]

/-- C6 (witness): the false-positive row is selected as a candidate. -/
theorem candidate_selection_substring_witness :
    ({ id := 3, pgn_sha1 := "s", pgn := "x", year := 2024, month := 3,
       white := some "Annabelle", black := some "Zed",
       result := none, time_control := none, eco := none,
       opening := none, end_time_utc := none } : GameRow)
      ∈ selectCandidates
        [{ id := 3, pgn_sha1 := "s", pgn := "x", year := 2024, month := 3,
           white := some "Annabelle", black := some "Zed",
           result := none, time_control := none, eco := none,
           opening := none, end_time_utc := none }] "ann" :=
  ((candidate_selection_substring _ "ann" _).1).mpr
    ⟨by decide, Or.inl ⟨"Annabelle", rfl, by decide⟩⟩

/-- C9 (counterexample): an empty-string family filter is a value that is
not a derivable family label, yet — being falsy in Python — it disables
the family filter instead of emptying the result: a matching game is
still returned. -/
theorem games_unknown_family_cex :
    FAMILIES.all (fun f => !(lowerS "" == lowerS f)) = true
    ∧ games
        [{ id := 1, pgn_sha1 := "a", pgn := "x", year := 2024, month := 1,
           white := some "Ann", black := some "Bob",
           result := some "1-0", time_control := none, eco := none,
           opening := none, end_time_utc := none }]
        "ann" none none (some "") none none OrderDir.desc 50 0 ≠ [] := by
  decide

/-- C9 (amended): `games` degrades to the empty sequence, not an error,
when the family filter is a non-empty value matching no derivable family
label case-insensitively (the empty-string value instead disables the
filter), when the username has no candidate games, and when the offset
reaches or passes the size of the filtered result. -/
theorem games_degrade_to_empty (db : List GameRow) (u : String)
    (ol ep f : Option String) (col : Option PColor) (res : Option PResult)
    (dir : OrderDir) (L O : Nat) :
    (∀ fs, f = some fs → fs.data ≠ [] →
      (∀ fam ∈ FAMILIES, lowerS fs ≠ lowerS fam) →
      games db u ol ep f col res dir L O = [])
    ∧ (selectCandidates db u = [] → games db u ol ep f col res dir L O = [])
    ∧ ((filteredGames db u ol ep f col res dir).length ≤ O →
        games db u ol ep f col res dir L O = []) := by
  refine ⟨?_, ?_, ?_⟩
  · intro fs hf hne hfam
    have hfg : filteredGames db u ol ep f col res dir = [] := by
      rw [filteredGames]
      have hfil : (sqlRows db u ol ep dir).filter (keepB u f col res) = [] := by
        rw [List.filter_eq_nil_iff]
        intro g hg
        have hemp : fs.data.isEmpty = false := by
          rcases hd : fs.data with _ | ⟨c, cs⟩
          · exact absurd hd hne
          · simp [List.isEmpty]
        have hbeq :
            (lowerS (family_from_eco_or_name g.eco g.opening) == lowerS fs)
              = false := by
          refine beq_eq_false_iff_ne.mpr ?_
          intro e
          exact hfam _ (classify_mem_FAMILIES g.eco g.opening) e.symm
        simp [keepB, hf, hemp, hbeq]
      rw [hfil]
      rfl
    rw [games, hfg]
    simp
  · intro hsel
    have hsql : sqlRows db u ol ep dir = [] := by
      rw [sqlRows.eq_def, hsel]
      cases ol <;> cases ep <;> simp [sortRows]
    rw [games, filteredGames, hsql]
    simp
  · intro hlen
    rw [games, List.drop_eq_nil_of_le hlen]
    simp

/-- C9 (witness): a username with no candidates yields the empty
sequence. -/
theorem games_degrade_to_empty_witness :
    games [] "nobody" none none none none none OrderDir.desc 5 0 = [] :=
  (games_degrade_to_empty [] "nobody" none none none none none
    OrderDir.desc 5 0).2.1 rfl

theorem upsert_store_mono (hash : String → String) (gs : List RawGame) :
    ∀ store d, hasDigest store d = true →
      hasDigest (upsertGames hash store gs).1 d = true := by
  induction gs with
  | nil =>
    intro store d h
    simpa [upsertGames] using h
  | cons g gs ih =>
    intro store d h
    by_cases hd : hasDigest store (hash (pgnText g))
    · simp only [upsertGames, hd, if_true]
      exact ih store d h
    · simp only [upsertGames, hd, Bool.false_eq_true, if_false]
      refine ih _ d ?_
      simp [hasDigest, List.any_append] at h ⊢
      exact Or.inl h
  
theorem upsert_adds_digest (hash : String → String) (g : RawGame)
    (gs : List RawGame) (store : List GameRow) :
    hasDigest (upsertGames hash store (g :: gs)).1 (hash (pgnText g)) = true := by
  by_cases hd : hasDigest store (hash (pgnText g))
  · simp only [upsertGames, hd, if_true]
    exact upsert_store_mono hash gs store _ hd
  · simp only [upsertGames, hd, Bool.false_eq_true, if_false]
    refine upsert_store_mono hash gs _ _ ?_
    simp [hasDigest, List.any_append, rowOfRaw]

theorem upsert_single_skip (hash : String → String) {s1 : List GameRow}
    {g2 : RawGame} (hds : hasDigest s1 (hash (pgnText g2)) = true) :
    upsertGames hash s1 [g2] = (s1, 0, 1) := by
  simp [upsertGames, hds]

theorem hasDigest_false_not_mem {store : List GameRow} {d : String}
    (h : hasDigest store d = false) :
    d ∉ store.map (fun r => r.pgn_sha1) := by
  intro hmem
  rw [List.mem_map] at hmem
  obtain ⟨r, hr, heq⟩ := hmem
  rw [hasDigest, List.any_eq_false] at h
  exact h r hr (by simp [heq])

theorem upsert_nodup (hash : String → String) (gs : List RawGame) :
    ∀ store, (store.map (fun r => r.pgn_sha1)).Nodup →
      ((upsertGames hash store gs).1.map (fun r => r.pgn_sha1)).Nodup := by
  induction gs with
  | nil =>
    intro store h
    simpa [upsertGames] using h
  | cons g gs ih =>
    intro store h
    by_cases hd : hasDigest store (hash (pgnText g))
    · simp only [upsertGames, hd, if_true]
      exact ih store h
    · simp only [upsertGames, hd, Bool.false_eq_true, if_false]
      refine ih _ ?_
      rw [List.map_append]
      refine List.Nodup.append h (by simp [List.nodup_singleton]) ?_
      intro a ha hb
      simp only [List.map_cons, List.map_nil, List.mem_singleton] at hb
      rw [hb] at ha
      exact hasDigest_false_not_mem (Bool.of_not_eq_true hd) (by simpa [rowOfRaw] using ha)

/-- C5: ingest is idempotent on raw game text: upserting a record whose
digest is fresh inserts it (`inserted = 1, skipped = 0`), a second upsert
of a record with identical raw text is skipped (`inserted = 0,
skipped = 1`) leaving the store unchanged, and any sequence of upserts
preserves uniqueness of the stored content hashes.  Holds for every
digest function. -/
theorem ingest_idempotent (hash : String → String) (store : List GameRow)
    (g g2 : RawGame) (gs : List RawGame)
    (hfresh : hasDigest store (hash (pgnText g)) = false)
    (hsame : pgnText g2 = pgnText g) :
    (upsertGames hash store [g]).2 = (1, 0)
    ∧ (upsertGames hash (upsertGames hash store [g]).1 [g2]).2 = (0, 1)
    ∧ (upsertGames hash (upsertGames hash store [g]).1 [g2]).1
        = (upsertGames hash store [g]).1
    ∧ ((store.map (fun r => r.pgn_sha1)).Nodup →
        ((upsertGames hash store gs).1.map (fun r => r.pgn_sha1)).Nodup) := by
  have h1 : upsertGames hash store [g]
      = (store ++ [rowOfRaw (store.length + 1) (hash (pgnText g)) g], 1, 0) := by
    simp [upsertGames, hfresh]
  have hd2 : hasDigest (upsertGames hash store [g]).1 (hash (pgnText g2)) = true := by
    rw [hsame, h1]
    simp [hasDigest, List.any_append, rowOfRaw]
  refine ⟨by rw [h1], ?_, ?_, upsert_nodup hash gs store⟩
  · rw [upsert_single_skip hash hd2]
  · rw [upsert_single_skip hash hd2]

/-- C5 (witness): same raw text ingested twice — first inserted, second
skipped — and the store keeps content hashes unique. -/
theorem ingest_idempotent_witness :
    (upsertGames (fun s => s) []
      [{ pgn := some "1. e4 c5", year := some 2024, month := some 1,
         white := some "Ann", black := some "Bob", result := some "1-0",
         time_control := none, eco := some "B20", end_time_utc := none }]).2
      = (1, 0)
    ∧ (upsertGames (fun s => s)
        (upsertGames (fun s => s) []
          [{ pgn := some "1. e4 c5", year := some 2024, month := some 1,
             white := some "Ann", black := some "Bob", result := some "1-0",
             time_control := none, eco := some "B20", end_time_utc := none }]).1
        [{ pgn := some "1. e4 c5", year := some 2025, month := some 6,
           white := some "Zo", black := some "Yi", result := some "0-1",
           time_control := some "60", eco := none, end_time_utc := none }]).2
      = (0, 1) := by
  have h := ingest_idempotent (fun s => s) []
    { pgn := some "1. e4 c5", year := some 2024, month := some 1,
      white := some "Ann", black := some "Bob", result := some "1-0",
      time_control := none, eco := some "B20", end_time_utc := none }
    { pgn := some "1. e4 c5", year := some 2025, month := some 6,
      white := some "Zo", black := some "Yi", result := some "0-1",
      time_control := some "60", eco := none, end_time_utc := none }
    [] (by decide) (by decide)
  exact ⟨h.1, h.2.1⟩

/-- C10: an absent or empty raw PGN text is normalised to the empty
string before hashing, so all such records share one content hash: once
a record with empty text has been ingested, any later record with absent
or empty text is skipped as a duplicate regardless of its other
metadata.  Holds for every digest function. -/
theorem empty_pgn_single_hash (hash : String → String) (store : List GameRow)
    (g g2 : RawGame) (gs : List RawGame)
    (h : g.pgn = none ∨ g.pgn = some "")
    (h2 : g2.pgn = none ∨ g2.pgn = some "") :
    pgnText g = "" ∧ pgnText g2 = ""
    ∧ (upsertGames hash (upsertGames hash store (g :: gs)).1 [g2]).1
        = (upsertGames hash store (g :: gs)).1
    ∧ (upsertGames hash (upsertGames hash store (g :: gs)).1 [g2]).2 = (0, 1) := by
  have hg : pgnText g = "" := by
    rcases h with h | h
    · rw [pgnText.eq_def, h]
    · rw [pgnText.eq_def, h]
      rfl
  have hg2 : pgnText g2 = "" := by
    rcases h2 with h2 | h2
    · rw [pgnText.eq_def, h2]
    · rw [pgnText.eq_def, h2]
      rfl
  have hd : hasDigest (upsertGames hash store (g :: gs)).1 (hash (pgnText g2))
      = true := by
    rw [hg2, ← hg]
    exact upsert_adds_digest hash g gs store
  refine ⟨hg, hg2, ?_, ?_⟩
  · rw [upsert_single_skip hash hd]
  · rw [upsert_single_skip hash hd]

/-- C10 (witness): a record with absent text then a record with empty
text and different metadata: the second is skipped. -/
theorem empty_pgn_single_hash_witness :
    (upsertGames (fun s => s)
      (upsertGames (fun s => s) []
        [{ pgn := none, year := some 2024, month := some 1,
           white := some "Ann", black := some "Bob", result := some "1-0",
           time_control := none, eco := none, end_time_utc := none }]).1
      [{ pgn := some "", year := some 2030, month := some 12,
         white := some "Cy", black := some "Di", result := some "1/2-1/2",
         time_control := some "180", eco := some "C60",
         end_time_utc := some 5 }]).2 = (0, 1) :=
  (empty_pgn_single_hash (fun s => s) []
    { pgn := none, year := some 2024, month := some 1,
      white := some "Ann", black := some "Bob", result := some "1-0",
      time_control := none, eco := none, end_time_utc := none }
    { pgn := some "", year := some 2030, month := some 12,
      white := some "Cy", black := some "Di", result := some "1/2-1/2",
      time_control := some "180", eco := some "C60",
      end_time_utc := some 5 }
    [] (Or.inl rfl) (Or.inr rfl)).2.2.2
